import Mathlib

/-!
# User Profile Audit System — verification of the versioned audit/restore engine

Shallow embedding of `src/app/main.py`, `src/app/core/database.py` and
`src/app/core/exceptions.py`.  The transactional store is modelled as an
explicit state (`DBState`); each SQL statement the code executes becomes a
Lean function over that state, enforcing exactly the constraints declared by
`init_db` (`users.id` primary key, `users.email UNIQUE`, the
`user_audit.user_id → users.id` foreign key, and the plain — non-unique —
index on `user_audit(user_id, version)`).  Each endpoint body is the
statement sequence from `main.py`; the `get_db_cursor` context manager
(commit on success, rollback and re-raise on any exception) together with the
endpoint's `except` clauses becomes `runTx` plus a per-endpoint error
translation.  Timestamps (`CURRENT_TIMESTAMP`) are an explicit `now : Nat`
argument.
-/

/-- A row of the `users` table (`init_db` in `src/app/core/database.py`). -/
structure UserRow where
  id : Nat
  name : String
  email : String
  password_hash : String
  created_at : Nat
  updated_at : Nat
  deriving Repr, DecidableEq

/-- A row of the `user_audit` table (`init_db`).  The surrogate serial `id`
column plays no role in any query the application issues, so it is omitted;
rows are kept in insertion order in the list. -/
structure AuditRow where
  user_id : Nat
  version : Nat
  name : String
  email : String
  action : String
  changed_at : Nat
  changed_by : Option String
  deriving Repr, DecidableEq

/-- The database state: both tables plus the `users.id` serial counter. -/
structure DBState where
  users : List UserRow
  audit : List AuditRow
  nextUserId : Nat
  deriving Repr, DecidableEq

/-- Fresh database right after `init_db`: empty tables, serial at 1. -/
def emptyDB : DBState := ⟨[], [], 1⟩

deriving instance DecidableEq for Except

/-- Constraint violations the storage engine can raise (psycopg2
`PostgresError`s as far as the application distinguishes them). -/
inductive DBError where
  | uniqueViolation
  | fkViolation
  deriving Repr, DecidableEq

/-- `SELECT ... FROM users WHERE id = %s` followed by `fetchone`. -/
def findUserById (s : DBState) (uid : Nat) : Option UserRow :=
  s.users.find? (fun u => u.id == uid)

/-- `SELECT id FROM users WHERE email = %s` followed by `fetchone`. -/
def findUserByEmail (s : DBState) (email : String) : Option UserRow :=
  s.users.find? (fun u => u.email == email)

/-- `INSERT INTO users (name, email, password_hash) VALUES ... RETURNING ...`.
The engine checks the `email` UNIQUE constraint and the serial primary key;
`created_at`/`updated_at` take their `CURRENT_TIMESTAMP` defaults. -/
def insertUser (s : DBState) (name email pwHash : String) (now : Nat) :
    Except DBError (UserRow × DBState) :=
  if s.users.any (fun u => u.email == email) then .error .uniqueViolation
  else if s.users.any (fun u => u.id == s.nextUserId) then .error .uniqueViolation
  else
    let u : UserRow := ⟨s.nextUserId, name, email, pwHash, now, now⟩
    .ok (u, { s with users := s.users ++ [u], nextUserId := s.nextUserId + 1 })

/-- `INSERT INTO users (id, name, email, password_hash) VALUES ...` with an
explicit id (the restore-after-delete path).  The serial counter is not
advanced by an explicit-id insert. -/
def insertUserWithId (s : DBState) (uid : Nat) (name email pwHash : String)
    (now : Nat) : Except DBError (UserRow × DBState) :=
  if s.users.any (fun u => u.id == uid) then .error .uniqueViolation
  else if s.users.any (fun u => u.email == email) then .error .uniqueViolation
  else
    let u : UserRow := ⟨uid, name, email, pwHash, now, now⟩
    .ok (u, { s with users := s.users ++ [u] })

/-- `UPDATE users SET name = %s, email = %s, updated_at = CURRENT_TIMESTAMP
WHERE id = %s RETURNING ...` followed by `fetchone`.  Returns the updated row
when one matched (`rowcount` ≥ 1 iff the option is `some`).  Updating a
matched row to an email held by a different live row violates the UNIQUE
constraint; matching no row performs no write and no check. -/
def updateUserRow (s : DBState) (uid : Nat) (name email : String) (now : Nat) :
    Except DBError (Option UserRow × DBState) :=
  match findUserById s uid with
  | none => .ok (none, s)
  | some u =>
      if s.users.any (fun v => v.id != uid && v.email == email) then
        .error .uniqueViolation
      else
        let u2 : UserRow := { u with name := name, email := email, updated_at := now }
        .ok (some u2,
          { s with users := s.users.map (fun v => if v.id == uid then u2 else v) })

/-- `INSERT INTO user_audit (...) VALUES (...)`.  The declared constraints on
`user_audit` are `NOT NULL`s and the foreign key `user_id REFERENCES
users(id)`; the index on `(user_id, version)` is a plain `CREATE INDEX`, so
no uniqueness is checked for the `(user_id, version)` pair. -/
def insertAudit (s : DBState) (r : AuditRow) : Except DBError DBState :=
  if s.users.any (fun u => u.id == r.user_id) then
    .ok { s with audit := s.audit ++ [r] }
  else .error .fkViolation

/-- `DELETE FROM users WHERE id = %s`.  The foreign key from `user_audit` is
declared without `ON DELETE`, so deleting a row still referenced by any audit
row raises a foreign-key violation. -/
def deleteUserRow (s : DBState) (uid : Nat) : Except DBError DBState :=
  if s.audit.any (fun a => a.user_id == uid) then .error .fkViolation
  else .ok { s with users := s.users.filter (fun u => u.id != uid) }

/-- Ordering used by `ORDER BY version DESC`: row `a` precedes row `b` when
`b.version ≤ a.version`. -/
def verGE (a b : AuditRow) : Prop := b.version ≤ a.version

instance : DecidableRel verGE := fun a b =>
  inferInstanceAs (Decidable (b.version ≤ a.version))

instance : IsTotal AuditRow verGE :=
  ⟨fun a b => Nat.le_total b.version a.version⟩

instance : IsTrans AuditRow verGE :=
  ⟨fun _ _ _ h1 h2 => Nat.le_trans h2 h1⟩

/-- All audit rows of one entity, in insertion order
(`SELECT ... FROM user_audit WHERE user_id = %s`). -/
def auditFor (s : DBState) (uid : Nat) : List AuditRow :=
  s.audit.filter (fun a => a.user_id == uid)

/-- `SELECT ... FROM user_audit WHERE user_id = %s ORDER BY version DESC`
followed by `fetchall`. -/
def historyQuery (s : DBState) (uid : Nat) : List AuditRow :=
  List.insertionSort verGE (auditFor s uid)

/-- `SELECT version FROM user_audit WHERE user_id = %s ORDER BY version DESC
LIMIT 1` followed by `fetchone`. -/
def latestVersion (s : DBState) (uid : Nat) : Option Nat :=
  (historyQuery s uid).head?.map (fun r => r.version)

/-- The versions recorded for one entity, in insertion order. -/
def versionsOf (s : DBState) (uid : Nat) : List Nat :=
  (auditFor s uid).map (fun a => a.version)

/-- Modelled from the spec: `src/app/core/security.py` is not in the source
tree; the spec (§1) treats credential hashing as an opaque service.  No claim
depends on the hash value itself, only on its opacity, so any stand-in
works. -/
def get_password_hash (password : String) : String :=
  "bcrypt$" ++ password

/-- The application-level error taxonomy of `src/app/core/exceptions.py`
(`AppException` and its subclasses), as the exception handlers surface it. -/
inductive ApiError where
  | notFound (msg : String)
  | validation (msg : String)
  | authentication (msg : String)
  | appError (errorCode : String)
  | databaseError (detail : String)
  deriving Repr, DecidableEq

/-- HTTP status each exception class carries (`exceptions.py`). -/
def ApiError.status : ApiError → Nat
  | .notFound _ => 404
  | .validation _ => 400
  | .authentication _ => 401
  | .appError _ => 500
  | .databaseError _ => 500

/-- Exceptions an endpoint body can raise before its `except` clauses
translate them: storage-engine errors (`PostgresError`),
`NotFoundException`, `ValidationException`, and the `TypeError` from
subscripting a `None` fetch result. -/
inductive BodyErr where
  | pg (e : DBError)
  | notFound (msg : String)
  | validation (msg : String)
  | noneTypeError
  deriving Repr, DecidableEq

/-- `get_db_cursor` (`src/app/core/database.py`): the body runs inside one
transaction; on normal exit the transaction commits (the body's final state
is kept), on any exception it rolls back (the original state is kept) and
the exception is re-raised into the endpoint's `except` clauses, modelled by
`translate`. -/
def runTx {A : Type} (s : DBState) (translate : BodyErr → ApiError)
    (body : Except BodyErr (A × DBState)) : Except ApiError A × DBState :=
  match body with
  | .ok (a, s2) => (.ok a, s2)
  | .error e => (.error (translate e), s)

/-- Body of `create_user` (`main.py`): duplicate-email check, `INSERT INTO
users`, `INSERT INTO user_audit` with version 1, action CREATE, no actor. -/
def createUserBody (s : DBState) (name email password : String) (now : Nat) :
    Except BodyErr (UserRow × DBState) :=
  match findUserByEmail s email with
  | some _ => .error (.validation "Email already registered")
  | none =>
    match insertUser s name email (get_password_hash password) now with
    | .error e => .error (.pg e)
    | .ok (u, s1) =>
      match insertAudit s1 ⟨u.id, 1, name, email, "CREATE", now, none⟩ with
      | .error e => .error (.pg e)
      | .ok s2 => .ok (u, s2)

/-- `except` clauses of `create_user`: `PostgresError` becomes a
`DatabaseException`; there is no `except ValidationException` clause, so the
duplicate-email `ValidationException` falls through to the blanket
`except Exception` and is re-raised as a 500 `AppException` with code
`USER_CREATE_ERROR`. -/
def createUserTranslate : BodyErr → ApiError
  | .pg _ => .databaseError "Database error while creating user"
  | _ => .appError "USER_CREATE_ERROR"

/-- `POST /users` (`create_user` in `main.py`). -/
def createUser (s : DBState) (name email password : String) (now : Nat) :
    Except ApiError UserRow × DBState :=
  runTx s createUserTranslate (createUserBody s name email password now)

/-- `except` clauses of `get_user`. -/
def getUserTranslate : BodyErr → ApiError
  | .pg _ => .databaseError "Database error while fetching user"
  | .notFound m => .notFound m
  | _ => .appError "USER_FETCH_ERROR"

/-- `GET /users/{user_id}` (`get_user` in `main.py`). -/
def getUser (s : DBState) (uid : Nat) : Except ApiError UserRow × DBState :=
  runTx s getUserTranslate
    (match findUserById s uid with
     | none => .error (.notFound ("User with id " ++ toString uid ++ " not found"))
     | some u => .ok (u, s))

/-- Body of `update_user`: latest-version lookup (404 when there is no
history), `UPDATE users ... RETURNING`, audit append with action UPDATE and
the acting subject.  Note there is no check that the live row exists. -/
def updateUserBody (s : DBState) (uid : Nat) (name email actor : String)
    (now : Nat) : Except BodyErr (Option UserRow × DBState) :=
  match latestVersion s uid with
  | none => .error (.notFound ("User with id " ++ toString uid ++ " not found"))
  | some v =>
    match updateUserRow s uid name email now with
    | .error e => .error (.pg e)
    | .ok (updated, s1) =>
      match insertAudit s1 ⟨uid, v + 1, name, email, "UPDATE", now, some actor⟩ with
      | .error e => .error (.pg e)
      | .ok s2 => .ok (updated, s2)

/-- `except` clauses of `update_user`. -/
def updateUserTranslate : BodyErr → ApiError
  | .pg _ => .databaseError "Database error while updating user"
  | .notFound m => .notFound m
  | _ => .appError "USER_UPDATE_ERROR"

/-- `PUT /users/{user_id}` (`update_user` in `main.py`).  The returned value
is the `fetchone` of the `RETURNING` clause, `none` when no row matched. -/
def updateUser (s : DBState) (uid : Nat) (name email actor : String)
    (now : Nat) : Except ApiError (Option UserRow) × DBState :=
  runTx s updateUserTranslate (updateUserBody s uid name email actor now)

/-- Body of `delete_user`: latest-version lookup (404 when no history),
pre-delete snapshot fetch (404 when no live row), audit append with action
DELETE carrying the snapshot, then `DELETE FROM users`. -/
def deleteUserBody (s : DBState) (uid : Nat) (actor : String) (now : Nat) :
    Except BodyErr (String × DBState) :=
  match latestVersion s uid with
  | none => .error (.notFound ("User with id " ++ toString uid ++ " not found"))
  | some v =>
    match findUserById s uid with
    | none => .error (.notFound ("User with id " ++ toString uid ++ " not found"))
    | some u =>
      match insertAudit s ⟨uid, v + 1, u.name, u.email, "DELETE", now, some actor⟩ with
      | .error e => .error (.pg e)
      | .ok s1 =>
        match deleteUserRow s1 uid with
        | .error e => .error (.pg e)
        | .ok s2 => .ok ("User deleted successfully", s2)

/-- `except` clauses of `delete_user`. -/
def deleteUserTranslate : BodyErr → ApiError
  | .pg _ => .databaseError "Database error while deleting user"
  | .notFound m => .notFound m
  | _ => .appError "USER_DELETE_ERROR"

/-- `DELETE /users/{user_id}` (`delete_user` in `main.py`). -/
def deleteUser (s : DBState) (uid : Nat) (actor : String) (now : Nat) :
    Except ApiError String × DBState :=
  runTx s deleteUserTranslate (deleteUserBody s uid actor now)

/-- `except` clauses of `get_user_audit`. -/
def getUserAuditTranslate : BodyErr → ApiError
  | .pg _ => .databaseError "Database error while fetching audit entries"
  | .notFound m => .notFound m
  | _ => .appError "AUDIT_FETCH_ERROR"

/-- `GET /audit/users/{user_id}` (`get_user_audit` in `main.py`): full
history newest-version first; 404 when the result set is empty. -/
def getUserAudit (s : DBState) (uid : Nat) :
    Except ApiError (List AuditRow) × DBState :=
  runTx s getUserAuditTranslate
    (if historyQuery s uid = [] then
       .error (.notFound ("No audit entries found for user " ++ toString uid))
     else .ok (historyQuery s uid, s))

/-- Body of `restore_user_version`: fetch the target snapshot (404 when
absent), fetch the latest version — the code subscripts that fetch result
without a `None` check, modelled as `noneTypeError` — then `UPDATE users`
with the snapshot, re-insert the row with sentinel credential `RESTORED`
when no row matched (`rowcount == 0`), and append the RESTORE audit row. -/
def restoreUserBody (s : DBState) (uid ver : Nat) (actor : String) (now : Nat) :
    Except BodyErr (String × DBState) :=
  match s.audit.find? (fun a => a.user_id == uid && a.version == ver) with
  | none =>
      .error (.notFound ("Version " ++ toString ver ++ " not found for user "
        ++ toString uid))
  | some old =>
    match latestVersion s uid with
    | none => .error .noneTypeError
    | some v =>
      match updateUserRow s uid old.name old.email now with
      | .error e => .error (.pg e)
      | .ok (updated, s1) =>
        let reinserted : Except DBError DBState :=
          match updated with
          | some _ => .ok s1
          | none =>
            match insertUserWithId s1 uid old.name old.email "RESTORED" now with
            | .error e => .error e
            | .ok (_, s2) => .ok s2
        match reinserted with
        | .error e => .error (.pg e)
        | .ok s2 =>
          match insertAudit s2 ⟨uid, v + 1, old.name, old.email, "RESTORE",
              now, some actor⟩ with
          | .error e => .error (.pg e)
          | .ok s3 => .ok ("User restored to version " ++ toString ver, s3)

/-- `except` clauses of `restore_user_version`. -/
def restoreUserTranslate : BodyErr → ApiError
  | .pg _ => .databaseError "Database error while restoring user version"
  | .notFound m => .notFound m
  | _ => .appError "USER_RESTORE_ERROR"

/-- `POST /audit/users/{user_id}/restore/{version}` (`restore_user_version`
in `main.py`). -/
def restoreUserVersion (s : DBState) (uid ver : Nat) (actor : String)
    (now : Nat) : Except ApiError String × DBState :=
  runTx s restoreUserTranslate (restoreUserBody s uid ver actor now)

/-! ## Operation sequences and the reachability invariant -/

/-- One mutating request, with its arguments as they reach the endpoint. -/
inductive Op where
  | create (name email password : String)
  | update (uid : Nat) (name email actor : String)
  | delete (uid : Nat) (actor : String)
  | restore (uid ver : Nat) (actor : String)
  deriving Repr, DecidableEq

/-- The entity identity a mutation is applied to.  A create targets the
identity the serial assigns when it succeeds, `s.nextUserId`. -/
def targetOf (op : Op) (s : DBState) : Nat :=
  match op with
  | .create _ _ _ => s.nextUserId
  | .update uid _ _ _ => uid
  | .delete uid _ => uid
  | .restore uid _ _ => uid

/-- Dispatch one request at time `now`, reporting whether it succeeded and
the resulting database state. -/
def applyOp (now : Nat) (op : Op) (s : DBState) : Bool × DBState :=
  match op with
  | .create n e p =>
      match createUser s n e p now with
      | (.ok _, s2) => (true, s2)
      | (.error _, s2) => (false, s2)
  | .update uid n e a =>
      match updateUser s uid n e a now with
      | (.ok _, s2) => (true, s2)
      | (.error _, s2) => (false, s2)
  | .delete uid a =>
      match deleteUser s uid a now with
      | (.ok _, s2) => (true, s2)
      | (.error _, s2) => (false, s2)
  | .restore uid v a =>
      match restoreUserVersion s uid v a now with
      | (.ok _, s2) => (true, s2)
      | (.error _, s2) => (false, s2)

/-- Run a sequence of timestamped requests. -/
def runOps : List (Nat × Op) → DBState → DBState
  | [], s => s
  | (now, op) :: rest, s => runOps rest (applyOp now op s).2

/-- Number of requests in the sequence that succeed and whose target is the
identity `uid` — "mutations ever applied" to that identity. -/
def mutationCount (uid : Nat) : List (Nat × Op) → DBState → Nat
  | [], _ => 0
  | (now, op) :: rest, s =>
      (if (applyOp now op s).1 && targetOf op s == uid then 1 else 0)
        + mutationCount uid rest (applyOp now op s).2

/-- Database well-formedness maintained by the engine: per-entity versions
are, in insertion order, exactly `1, 2, …, N`; all recorded identities are
below the serial counter. -/
structure DBInv (s : DBState) : Prop where
  gapless : ∀ uid, versionsOf s uid = List.range' 1 (versionsOf s uid).length
  auditBound : ∀ a ∈ s.audit, a.user_id < s.nextUserId
  userBound : ∀ u ∈ s.users, u.id < s.nextUserId

/-- Executable form of `DBInv`, for concrete witnesses. -/
def dbInvCheck (s : DBState) : Bool :=
  ((s.audit.map (fun a => a.user_id)).all fun uid =>
      versionsOf s uid == List.range' 1 (versionsOf s uid).length)
    && (s.audit.all fun a => a.user_id < s.nextUserId)
    && (s.users.all fun u => u.id < s.nextUserId)

theorem dbInv_of_check (s : DBState) (h : dbInvCheck s = true) : DBInv s := by
  simp only [dbInvCheck, Bool.and_eq_true, List.all_eq_true, List.mem_map]
  at h
  obtain ⟨⟨hg, ha⟩, hu⟩ := h
  refine ⟨fun uid => ?_, fun a ha2 => by simpa using ha a ha2,
    fun u hu2 => by simpa using hu u hu2⟩
  by_cases hmem : ∃ a ∈ s.audit, a.user_id = uid
  · obtain ⟨a, hmem, rfl⟩ := hmem
    have := hg a.user_id ⟨a, hmem, rfl⟩
    simpa using this
  · have : auditFor s uid = [] := by
      apply List.filter_eq_nil_iff.mpr
      intro a hA
      simp only [beq_iff_eq]
      intro hEq
      exact hmem ⟨a, hA, hEq⟩
    simp [versionsOf, this]

theorem dbInv_emptyDB : DBInv emptyDB := by
  refine ⟨fun uid => ?_, ?_, ?_⟩ <;> simp [emptyDB, versionsOf, auditFor]

/-! ## Helper lemmas -/

theorem any_eq_false_of_find?_eq_none {α : Type} {p : α → Bool} {l : List α}
    (h : l.find? p = none) : l.any p = false := by
  rw [List.any_eq_false]
  intro x hx
  exact List.find?_eq_none.mp h x hx

/-- Any audit row recorded for `uid` forces the latest-version query
(`ORDER BY version DESC LIMIT 1`) to return a row. -/
theorem latestVersion_isSome_of_mem {s : DBState} {uid : Nat} {a : AuditRow}
    (hmem : a ∈ s.audit) (huid : a.user_id = uid) :
    ∃ n, latestVersion s uid = some n := by
  have hin : a ∈ auditFor s uid := by
    rw [auditFor, List.mem_filter]
    exact ⟨hmem, by simp [huid]⟩
  have hne : historyQuery s uid ≠ [] := by
    intro h
    have h2 := ((List.perm_insertionSort verGE (auditFor s uid)).symm.mem_iff).mp hin
    rw [historyQuery] at h
    rw [h] at h2
    exact (List.not_mem_nil a) h2
  obtain ⟨r, t, hrt⟩ := List.exists_cons_of_ne_nil hne
  exact ⟨r.version, by rw [latestVersion, hrt]; rfl⟩

/-! ## Claim theorems: concrete states -/

/-- The row and state produced by a first `POST /users` on a fresh DB. -/
def userA : UserRow := ⟨1, "A", "a@x", "bcrypt$pw", 0, 0⟩

def afterFirstCreate : DBState :=
  ⟨[userA], [⟨1, 1, "A", "a@x", "CREATE", 0, none⟩], 2⟩

/-- A state whose entity 1 has audit history but no live row. -/
def c8State : DBState := ⟨[], [⟨1, 1, "A", "a@x", "CREATE", 0, none⟩], 2⟩

/-- Entity 1 deleted, its version 1 on record, while live entity 2 now holds
the contact identifier "a@x" that version 1 snapshotted. -/
def c3Cex : DBState :=
  ⟨[⟨2, "B", "a@x", "h2", 0, 0⟩], [⟨1, 1, "A", "a@x", "CREATE", 0, none⟩], 3⟩

/-- Entity 1 deleted, its version 1 on record, no live contact conflict. -/
def c3Good : DBState :=
  ⟨[⟨2, "B", "b@x", "h2", 0, 0⟩], [⟨1, 1, "A", "a@x", "CREATE", 0, none⟩], 3⟩

/-- A live entity 1 with one audit row, for exhibiting a duplicate append. -/
def dupState : DBState :=
  ⟨[⟨1, "A", "a@x", "h", 0, 0⟩], [⟨1, 1, "A", "a@x", "CREATE", 0, none⟩], 2⟩

/-- A second audit row carrying the already-recorded pair `(1, 1)`. -/
def dupRow : AuditRow := ⟨1, 1, "X", "y@z", "UPDATE", 2, some "9"⟩

/-- C5: the claim says an audit append whose `(entity_id, version)` pair
already exists is rejected with a constraint violation.  The schema only
declares a *plain* index on `user_audit(user_id, version)` (`init_db`), so
the engine accepts the duplicate: appending a second row with the pair
`(1, 1)` succeeds and afterwards two rows carry that pair. -/
theorem duplicate_version_append_accepted :
    insertAudit dupState dupRow
      = .ok ⟨dupState.users, dupState.audit ++ [dupRow], 2⟩
    ∧ (dupState.audit ++ [dupRow]).countP
        (fun a => a.user_id == 1 && a.version == 1) = 2 := by decide

/-- C6: the claim says the second create with a duplicate contact fails with
Conflict reported as HTTP 400.  In `create_user` the duplicate-email
`ValidationException` (status 400) is caught by the blanket
`except Exception` clause — there is no re-raise clause for it, unlike the
`NotFoundException` re-raises in the other endpoints — and re-raised as a
500 `AppException` with code `USER_CREATE_ERROR`.  The first entity does
remain created. -/
theorem duplicate_create_returns_500_not_400 :
    createUser emptyDB "A" "a@x" "pw" 0 = (.ok userA, afterFirstCreate)
    ∧ createUser afterFirstCreate "A2" "a@x" "pw2" 1
        = (.error (.appError "USER_CREATE_ERROR"), afterFirstCreate)
    ∧ (ApiError.appError "USER_CREATE_ERROR").status = 500
    ∧ findUserByEmail afterFirstCreate "a@x" = some userA := by decide

/-- C7: the claim says a delete succeeds, after which the entity fetch is
404 while the history keeps the DELETE record.  The schema declares
`user_audit.user_id REFERENCES users(id)` with no `ON DELETE` action, so
`DELETE FROM users` always violates the foreign key (every live entity has
at least its CREATE audit row, and `delete_user` inserts the DELETE audit
row first): the delete returns 500, rolls back, and the entity stays
fetchable. -/
theorem delete_always_fails_fk :
    deleteUser afterFirstCreate 1 "1" 2
      = (.error (.databaseError "Database error while deleting user"),
         afterFirstCreate)
    ∧ (getUser afterFirstCreate 1).1 = .ok userA
    ∧ (ApiError.databaseError "Database error while deleting user").status = 500
      := by decide

/-- C8: the claim says an update on an entity absent from the Entity Store
fails with NotFound and appends no audit record.  `update_user` only checks
the audit history, not the live row: on a deleted entity the `UPDATE`
matches no row and the subsequent audit insert violates the foreign key, so
the request fails as a 500 `DATABASE_ERROR` (the transaction rolls back),
not as a 404 NotFound. -/
theorem update_on_absent_entity_is_500_not_404 :
    updateUser c8State 1 "B" "b@x" "9" 5
      = (.error (.databaseError "Database error while updating user"), c8State)
    ∧ (ApiError.databaseError "Database error while updating user").status = 500
    ∧ (ApiError.databaseError "Database error while updating user").status ≠ 404
      := by decide

/-- C10: a delete on an identity whose history is non-empty but whose live
row is absent fails with NotFound before the DELETE audit append: the
returned state is the input state, so the audit log is unchanged. -/
theorem delete_on_absent_entity_notFound (s : DBState) (uid n now : Nat)
    (actor : String)
    (hHist : latestVersion s uid = some n)
    (hAbsent : findUserById s uid = none) :
    deleteUser s uid actor now
      = (.error (.notFound ("User with id " ++ toString uid ++ " not found")), s)
    := by
  simp only [deleteUser, deleteUserBody, hHist, hAbsent, runTx,
    deleteUserTranslate]

theorem delete_on_absent_entity_notFound_witness :
    latestVersion c8State 1 = some 1
    ∧ findUserById c8State 1 = none
    ∧ deleteUser c8State 1 "9" 5
        = (.error (.notFound ("User with id 1 not found")), c8State) :=
  ⟨by decide, by decide,
    delete_on_absent_entity_notFound c8State 1 1 5 "9" (by decide) (by decide)⟩

/-- C9: when the requested target version exists for the entity, the
unguarded subscript of the latest-version fetch in `restore_user_version`
cannot hit `None`: the target row itself makes the latest-version result set
non-empty, so the body never raises the `TypeError` branch. -/
theorem restore_latest_read_never_faults (s : DBState) (uid V : Nat)
    (actor : String) (now : Nat) (old : AuditRow)
    (hV : s.audit.find? (fun a => a.user_id == uid && a.version == V) = some old) :
    restoreUserBody s uid V actor now ≠ .error .noneTypeError := by
  have hmem : old ∈ s.audit := List.mem_of_find?_eq_some hV
  have hpred := List.find?_some hV
  have huid : old.user_id = uid := by
    simp only [Bool.and_eq_true, beq_iff_eq] at hpred
    exact hpred.1
  obtain ⟨n, hlv⟩ := latestVersion_isSome_of_mem hmem huid
  simp only [restoreUserBody, hV, hlv]
  split
  · simp
  · split
    · simp
    · split
      · simp
      · simp

theorem restore_latest_read_never_faults_witness :
    c3Good.audit.find? (fun a => a.user_id == 1 && a.version == 1)
      = some ⟨1, 1, "A", "a@x", "CREATE", 0, none⟩
    ∧ restoreUserBody c3Good 1 1 "2" 5 ≠ .error .noneTypeError :=
  ⟨by decide,
    restore_latest_read_never_faults c3Good 1 1 "2" 5
      ⟨1, 1, "A", "a@x", "CREATE", 0, none⟩ (by decide)⟩

/-- C3 counterexample: entity 1 has been deleted and its target version 1
exists in history, yet restoring to it does not re-create the entity — live
entity 2 holds the snapshotted contact identifier "a@x", so the
`INSERT INTO users` violates the email UNIQUE constraint, the transaction
rolls back with a 500, and entity 1 stays absent. -/
theorem restore_after_delete_can_fail_to_recreate :
    findUserById c3Cex 1 = none
    ∧ c3Cex.audit.find? (fun a => a.user_id == 1 && a.version == 1)
        = some ⟨1, 1, "A", "a@x", "CREATE", 0, none⟩
    ∧ (restoreUserVersion c3Cex 1 1 "2" 5).1
        = .error (.databaseError "Database error while restoring user version")
    ∧ findUserById (restoreUserVersion c3Cex 1 1 "2" 5).2 1 = none := by decide

/-- C3 (amended): when the deleted entity's target version exists and no
live entity currently holds the snapshot's contact identifier, the restore
re-creates the live entity under the original identity with the target
version's name and contact and the sentinel credential hash `RESTORED`. -/
theorem restore_after_delete_recreates (s : DBState) (uid V now : Nat)
    (actor : String) (old : AuditRow)
    (hAbsent : findUserById s uid = none)
    (hV : s.audit.find? (fun a => a.user_id == uid && a.version == V) = some old)
    (hEmailFree : s.users.all (fun u => u.email != old.email) = true) :
    ∃ msg s2, restoreUserVersion s uid V actor now = (.ok msg, s2)
      ∧ findUserById s2 uid = some ⟨uid, old.name, old.email, "RESTORED", now, now⟩ := by
  have hmem : old ∈ s.audit := List.mem_of_find?_eq_some hV
  have hpred := List.find?_some hV
  have huid : old.user_id = uid := by
    simp only [Bool.and_eq_true, beq_iff_eq] at hpred
    exact hpred.1
  obtain ⟨n, hlv⟩ := latestVersion_isSome_of_mem hmem huid
  have hUpd : updateUserRow s uid old.name old.email now = .ok (none, s) := by
    rw [updateUserRow, hAbsent]
  have hAnyId : s.users.any (fun u => u.id == uid) = false :=
    any_eq_false_of_find?_eq_none hAbsent
  have hAnyEmail : s.users.any (fun u => u.email == old.email) = false := by
    rw [List.any_eq_false]
    intro u hu
    have h2 := List.all_eq_true.mp hEmailFree u hu
    simpa using h2
  have hIns : insertUserWithId s uid old.name old.email "RESTORED" now
      = .ok (⟨uid, old.name, old.email, "RESTORED", now, now⟩,
             { s with users := s.users
                 ++ [⟨uid, old.name, old.email, "RESTORED", now, now⟩] }) := by
    simp [insertUserWithId, hAnyId, hAnyEmail]
  have hAud : insertAudit
        { s with users := s.users
            ++ [⟨uid, old.name, old.email, "RESTORED", now, now⟩] }
        ⟨uid, n + 1, old.name, old.email, "RESTORE", now, some actor⟩
      = .ok ⟨s.users ++ [⟨uid, old.name, old.email, "RESTORED", now, now⟩],
             s.audit ++ [⟨uid, n + 1, old.name, old.email, "RESTORE", now, some actor⟩],
             s.nextUserId⟩ := by
    simp [insertAudit, hAnyId]
  refine ⟨"User restored to version " ++ toString V,
    ⟨s.users ++ [⟨uid, old.name, old.email, "RESTORED", now, now⟩],
     s.audit ++ [⟨uid, n + 1, old.name, old.email, "RESTORE", now, some actor⟩],
     s.nextUserId⟩, ?_, ?_⟩
  · simp only [restoreUserVersion, restoreUserBody, hV, hlv, hUpd, hIns, hAud,
      runTx]
  · rw [findUserById] at hAbsent ⊢
    rw [List.find?_append, hAbsent]
    simp

theorem restore_after_delete_recreates_witness :
    findUserById c3Good 1 = none
    ∧ c3Good.audit.find? (fun a => a.user_id == 1 && a.version == 1)
        = some ⟨1, 1, "A", "a@x", "CREATE", 0, none⟩
    ∧ (c3Good.users.all (fun u => u.email != "a@x")) = true
    ∧ ∃ msg s2, restoreUserVersion c3Good 1 1 "2" 5 = (.ok msg, s2)
        ∧ findUserById s2 1 = some ⟨1, "A", "a@x", "RESTORED", 5, 5⟩ :=
  ⟨by decide, by decide, by decide,
    restore_after_delete_recreates c3Good 1 1 5 "2"
      ⟨1, 1, "A", "a@x", "CREATE", 0, none⟩ (by decide) (by decide) (by decide)⟩

/-- Under the gapless invariant, the `ORDER BY version DESC LIMIT 1` query
returns exactly the number of recorded mutations (or no row at all). -/
theorem latestVersion_of_gapless (s : DBState) (uid n : Nat)
    (h : versionsOf s uid = List.range' 1 n) :
    latestVersion s uid = if n = 0 then none else some n := by
  rcases Nat.eq_zero_or_pos n with hn | hn
  · subst hn
    have h0 : versionsOf s uid = [] := by simpa using h
    rw [versionsOf] at h0
    have hnil : auditFor s uid = [] := List.map_eq_nil_iff.mp h0
    rw [latestVersion, historyQuery, hnil]
    rfl
  · have hperm := List.perm_insertionSort verGE (auditFor s uid)
    have hsorted := List.sorted_insertionSort verGE (auditFor s uid)
    have hne2 : historyQuery s uid ≠ [] := by
      intro h0
      have hlen := hperm.length_eq
      rw [historyQuery] at h0
      rw [h0] at hlen
      have : (versionsOf s uid).length = 0 := by
        rw [versionsOf, List.length_map, ← hlen]
        rfl
      rw [h, List.length_range'] at this
      omega
    obtain ⟨r, t, hrt⟩ := List.exists_cons_of_ne_nil hne2
    have hLV : latestVersion s uid = some r.version := by
      rw [latestVersion, hrt]
      rfl
    rw [hLV, if_neg (by omega)]
    have hrmem : r ∈ auditFor s uid := by
      rw [historyQuery] at hrt
      exact hperm.mem_iff.mp (hrt ▸ List.mem_cons_self r t)
    have hrv : r.version ∈ versionsOf s uid :=
      List.mem_map_of_mem (fun a => a.version) hrmem
    rw [h] at hrv
    obtain ⟨i, hi, hieq⟩ := List.mem_range'.mp hrv
    have h2 : n ≤ r.version := by
      have hnmem : n ∈ versionsOf s uid := by
        rw [h]
        exact List.mem_range'.mpr ⟨n - 1, by omega, by omega⟩
      rw [versionsOf] at hnmem
      obtain ⟨a, hamem, hav⟩ := List.mem_map.mp hnmem
      have hains : a ∈ historyQuery s uid := by
        rw [historyQuery]
        exact hperm.mem_iff.mpr hamem
      rw [hrt] at hains
      rcases List.mem_cons.mp hains with heq | hat
      · subst heq
        omega
      · have hrel : verGE r a := by
          have hs2 : List.Sorted verGE (r :: t) := by
            rw [historyQuery] at hrt
            exact hrt ▸ hsorted
          exact List.rel_of_sorted_cons hs2 a hat
        rw [verGE] at hrel
        omega
    have hrn : r.version = n := by omega
    rw [hrn]

/-- Replacing every row bearing `uid` leaves a by-id `fetchone` at the
replacement row. -/
theorem find?_map_update (l : List UserRow) (uid : Nat) (u2 u : UserRow)
    (hfind : l.find? (fun v => v.id == uid) = some u) (hid : u2.id = uid) :
    (l.map (fun v => if v.id == uid then u2 else v)).find? (fun v => v.id == uid)
      = some u2 := by
  induction l with
  | nil => simp at hfind
  | cons x xs ih =>
    by_cases hx : x.id = uid
    · simp only [List.map_cons]
      rw [if_pos (by simp [hx])]
      rw [List.find?_cons_of_pos _ (by simp [hid])]
    · simp only [List.map_cons]
      rw [if_neg (by simp [hx])]
      rw [List.find?_cons_of_neg _ (by simp [hx])]
      rw [List.find?_cons_of_neg _ (by simp [hx])] at hfind
      exact ih hfind

/-- C2: a successful restore of entity `uid` to an existing version V, in a
well-formed state whose latest version is N, appends a brand-new audit
record with version N+1 tagged RESTORE carrying V's snapshot values, leaves
every prior record (the one at V included) untouched, and leaves the live
entity's name and contact equal to V's snapshot. -/
theorem restore_appends_fresh_version (s : DBState) (uid V N now : Nat)
    (actor msg : String) (s2 : DBState) (old : AuditRow)
    (hInv : DBInv s)
    (hV : s.audit.find? (fun a => a.user_id == uid && a.version == V) = some old)
    (hN : latestVersion s uid = some N)
    (hok : restoreUserVersion s uid V actor now = (.ok msg, s2)) :
    V ≤ N
    ∧ s2.audit
        = s.audit ++ [⟨uid, N + 1, old.name, old.email, "RESTORE", now, some actor⟩]
    ∧ (findUserById s2 uid).map (fun u => (u.name, u.email))
        = some (old.name, old.email) := by
  have hpred := List.find?_some hV
  have hmem : old ∈ s.audit := List.mem_of_find?_eq_some hV
  simp only [Bool.and_eq_true, beq_iff_eq] at hpred
  obtain ⟨huid, hver⟩ := hpred
  have hgap := hInv.gapless uid
  have hLV := latestVersion_of_gapless s uid (versionsOf s uid).length hgap
  rw [hN] at hLV
  have hNlen : N = (versionsOf s uid).length := by
    by_cases hz : (versionsOf s uid).length = 0
    · rw [if_pos hz] at hLV
      exact absurd hLV (by simp)
    · rw [if_neg hz] at hLV
      exact Option.some.inj hLV
  have hVmem : V ∈ versionsOf s uid := by
    rw [versionsOf]
    exact List.mem_map.mpr
      ⟨old, by (rw [auditFor, List.mem_filter]; exact ⟨hmem, by simp [huid]⟩), hver⟩
  have hVleN : V ≤ N := by
    rw [hgap] at hVmem
    obtain ⟨i, hi, hieq⟩ := List.mem_range'.mp hVmem
    omega
  simp only [restoreUserVersion, restoreUserBody, hV, hN, runTx] at hok
  cases hFind : findUserById s uid with
  | none =>
      have hAnyId : s.users.any (fun v => v.id == uid) = false := by
        rw [findUserById] at hFind
        exact any_eq_false_of_find?_eq_none hFind
      simp only [updateUserRow, hFind] at hok
      cases hc2 : s.users.any (fun v => v.email == old.email) with
      | true =>
          simp only [insertUserWithId, hAnyId, hc2] at hok
          simp at hok
      | false =>
          simp only [insertUserWithId, hAnyId, hc2] at hok
          simp only [Bool.false_eq_true, if_false, insertAudit, List.any_append,
            hAnyId, List.any_cons, List.any_nil, beq_self_eq_true, Bool.true_or,
            Bool.or_false, Bool.false_or, if_true] at hok
          simp only [Prod.mk.injEq, Except.ok.injEq] at hok
          obtain ⟨hmsg, hs2⟩ := hok
          subst hs2
          refine ⟨hVleN, rfl, ?_⟩
          rw [findUserById] at hFind ⊢
          simp only [List.find?_append, hFind]
          simp
  | some u =>
      have hu2 : u.id = uid := by
        rw [findUserById] at hFind
        have := List.find?_some hFind
        simpa using this
      cases hc : s.users.any (fun v => v.id != uid && v.email == old.email) with
      | true =>
          simp only [updateUserRow, hFind, hc] at hok
          simp at hok
      | false =>
          simp only [updateUserRow, hFind, hc, Bool.false_eq_true, if_false] at hok
          have hfm := find?_map_update s.users uid
            { u with name := old.name, email := old.email, updated_at := now } u
            (by rw [findUserById] at hFind; exact hFind) hu2
          have hany2 : (s.users.map (fun v =>
              if v.id == uid then
                { u with name := old.name, email := old.email, updated_at := now }
              else v)).any (fun v => v.id == uid) = true := by
            rw [List.any_eq_true]
            exact ⟨_, List.mem_of_find?_eq_some hfm, by simp [hu2]⟩
          simp only [insertAudit, hany2, if_true] at hok
          simp only [Prod.mk.injEq, Except.ok.injEq] at hok
          obtain ⟨hmsg, hs2⟩ := hok
          subst hs2
          refine ⟨hVleN, rfl, ?_⟩
          rw [findUserById]
          simp only [hfm]
          simp

/-- Entity 1 live with versions 1 (CREATE, name "A") and 2 (UPDATE, "B"). -/
def c2s : DBState := ⟨[⟨1, "B", "a@x", "h", 0, 0⟩],
  [⟨1, 1, "A", "a@x", "CREATE", 0, none⟩,
   ⟨1, 2, "B", "a@x", "UPDATE", 1, some "1"⟩], 2⟩

/-- `c2s` after restoring entity 1 to version 1 at time 9, actor "7". -/
def c2sAfter : DBState := ⟨[⟨1, "A", "a@x", "h", 0, 9⟩],
  [⟨1, 1, "A", "a@x", "CREATE", 0, none⟩,
   ⟨1, 2, "B", "a@x", "UPDATE", 1, some "1"⟩,
   ⟨1, 3, "A", "a@x", "RESTORE", 9, some "7"⟩], 2⟩

theorem restore_appends_fresh_version_witness :
    1 ≤ 2
    ∧ c2sAfter.audit = c2s.audit ++ [⟨1, 2 + 1, "A", "a@x", "RESTORE", 9, some "7"⟩]
    ∧ (findUserById c2sAfter 1).map (fun u => (u.name, u.email))
        = some ("A", "a@x") :=
  restore_appends_fresh_version c2s 1 1 2 9 "7" "User restored to version 1"
    c2sAfter ⟨1, 1, "A", "a@x", "CREATE", 0, none⟩
    (dbInv_of_check c2s (by decide)) (by decide) (by decide) (by decide)

theorem any_eq_true_of_find?_eq_some {α : Type} {p : α → Bool} {l : List α}
    {a : α} (h : l.find? p = some a) : l.any p = true :=
  List.any_eq_true.mpr ⟨a, List.mem_of_find?_eq_some h, List.find?_some h⟩

/-- `create_user` either rolls back leaving the state untouched, or commits
both its writes: the new live row under the serial identity and the version-1
CREATE audit row. -/
theorem createUser_cases (s : DBState) (n e p : String) (now : Nat) :
    (∃ err, createUser s n e p now = (.error err, s))
    ∨ createUser s n e p now
        = (.ok ⟨s.nextUserId, n, e, get_password_hash p, now, now⟩,
           ⟨s.users ++ [⟨s.nextUserId, n, e, get_password_hash p, now, now⟩],
            s.audit ++ [⟨s.nextUserId, 1, n, e, "CREATE", now, none⟩],
            s.nextUserId + 1⟩) := by
  rw [createUser, createUserBody]
  cases hf : findUserByEmail s e with
  | some u => exact .inl ⟨_, rfl⟩
  | none =>
    cases h1 : s.users.any (fun u => u.email == e) with
    | true =>
        rw [insertUser]
        simp only [h1, if_true]
        exact .inl ⟨_, rfl⟩
    | false =>
      cases h2 : s.users.any (fun u => u.id == s.nextUserId) with
      | true =>
          rw [insertUser]
          simp only [h1, h2, Bool.false_eq_true, if_false, if_true]
          exact .inl ⟨_, rfl⟩
      | false =>
          rw [insertUser]
          simp only [h1, h2, Bool.false_eq_true, if_false]
          simp only [insertAudit, List.any_append, h2, List.any_cons, List.any_nil,
            beq_self_eq_true, Bool.true_or, Bool.or_false, Bool.false_or,
            if_true]
          exact .inr rfl

/-- `delete_user` never commits: when the entity and its history exist, the
DELETE audit row is inserted first, so the subsequent `DELETE FROM users`
always violates the `user_audit.user_id` foreign key and the whole
transaction rolls back. -/
theorem deleteUser_error (s : DBState) (uid : Nat) (actor : String)
    (now : Nat) : ∃ err, deleteUser s uid actor now = (.error err, s) := by
  rw [deleteUser, deleteUserBody]
  cases hl : latestVersion s uid with
  | none => exact ⟨_, rfl⟩
  | some v =>
    cases hf : findUserById s uid with
    | none => exact ⟨_, rfl⟩
    | some u =>
      have hAny : s.users.any (fun w => w.id == uid) = true := by
        rw [findUserById] at hf
        exact any_eq_true_of_find?_eq_some hf
      simp only [insertAudit, hAny, if_true]
      simp only [deleteUserRow, List.any_append, List.any_cons, List.any_nil,
        beq_self_eq_true, Bool.true_or, Bool.or_true, Bool.or_false]
      exact ⟨_, rfl⟩

/-- `update_user` either rolls back leaving the state untouched, or commits
both its writes: the refreshed live row and the UPDATE audit row at version
latest+1. -/
theorem updateUser_cases (s : DBState) (uid : Nat) (n e actor : String)
    (now : Nat) :
    (∃ err, updateUser s uid n e actor now = (.error err, s))
    ∨ (∃ v u, latestVersion s uid = some v
        ∧ findUserById s uid = some u
        ∧ updateUser s uid n e actor now
          = (.ok (some { u with name := n, email := e, updated_at := now }),
             ⟨s.users.map (fun w => if w.id == uid
                 then { u with name := n, email := e, updated_at := now } else w),
              s.audit ++ [⟨uid, v + 1, n, e, "UPDATE", now, some actor⟩],
              s.nextUserId⟩)) := by
  rw [updateUser, updateUserBody]
  cases hl : latestVersion s uid with
  | none => exact .inl ⟨_, rfl⟩
  | some v =>
    cases hf : findUserById s uid with
    | none =>
      have hAnyId : s.users.any (fun w => w.id == uid) = false := by
        rw [findUserById] at hf
        exact any_eq_false_of_find?_eq_none hf
      simp only [updateUserRow, hf, insertAudit, hAnyId, Bool.false_eq_true,
        if_false]
      exact .inl ⟨_, rfl⟩
    | some u =>
      cases hc : s.users.any (fun w => w.id != uid && w.email == e) with
      | true =>
          simp only [updateUserRow, hf, hc, if_true]
          exact .inl ⟨_, rfl⟩
      | false =>
          have hu2 : u.id = uid := by
            rw [findUserById] at hf
            have := List.find?_some hf
            simpa using this
          have hfm := find?_map_update s.users uid
            { u with name := n, email := e, updated_at := now } u
            (by rw [findUserById] at hf; exact hf) hu2
          have hany2 : (s.users.map (fun w => if w.id == uid
              then { u with name := n, email := e, updated_at := now }
              else w)).any (fun w => w.id == uid) = true :=
            any_eq_true_of_find?_eq_some hfm
          simp only [updateUserRow, hf, hc, Bool.false_eq_true, if_false,
            insertAudit, hany2, if_true]
          exact .inr ⟨v, u, rfl, rfl, rfl⟩

/-- `restore_user_version` either rolls back leaving the state untouched, or
commits the RESTORE audit row at version latest+1 together with the restored
live row (updated in place, or re-inserted with the sentinel credential);
the prior audit rows and the serial are untouched, and every resulting live
row either keeps an existing identity or bears the restored identity. -/
theorem restoreUser_cases (s : DBState) (uid V : Nat) (actor : String)
    (now : Nat) :
    (∃ err, restoreUserVersion s uid V actor now = (.error err, s))
    ∨ (∃ old v newUsers,
        s.audit.find? (fun a => a.user_id == uid && a.version == V) = some old
        ∧ latestVersion s uid = some v
        ∧ restoreUserVersion s uid V actor now
            = (.ok ("User restored to version " ++ toString V),
               ⟨newUsers,
                s.audit ++ [⟨uid, v + 1, old.name, old.email, "RESTORE", now,
                  some actor⟩],
                s.nextUserId⟩)
        ∧ (∀ w ∈ newUsers, w.id = uid ∨ ∃ w0 ∈ s.users, w.id = w0.id)) := by
  rw [restoreUserVersion, restoreUserBody]
  cases hV : s.audit.find? (fun a => a.user_id == uid && a.version == V) with
  | none => exact .inl ⟨_, rfl⟩
  | some old =>
    cases hl : latestVersion s uid with
    | none => exact .inl ⟨_, rfl⟩
    | some v =>
      cases hf : findUserById s uid with
      | none =>
        have hAnyId : s.users.any (fun w => w.id == uid) = false := by
          rw [findUserById] at hf
          exact any_eq_false_of_find?_eq_none hf
        simp only [updateUserRow, hf]
        cases hc2 : s.users.any (fun w => w.email == old.email) with
        | true =>
            simp only [insertUserWithId, hAnyId, hc2, Bool.false_eq_true,
              if_false, if_true]
            exact .inl ⟨_, rfl⟩
        | false =>
            simp only [insertUserWithId, hAnyId, hc2, Bool.false_eq_true,
              if_false]
            simp only [insertAudit, List.any_append, hAnyId, List.any_cons,
              List.any_nil, beq_self_eq_true, Bool.true_or, Bool.or_false,
              Bool.false_or, if_true, runTx]
            refine .inr ⟨old, v, _, rfl, rfl, rfl, ?_⟩
            intro w hw
            rcases List.mem_append.mp hw with h | h
            · exact .inr ⟨w, h, rfl⟩
            · simp only [List.mem_singleton] at h
              subst h
              exact .inl rfl
      | some u =>
        cases hc : s.users.any (fun w => w.id != uid && w.email == old.email) with
        | true =>
            simp only [updateUserRow, hf, hc, if_true]
            exact .inl ⟨_, rfl⟩
        | false =>
            have hu2 : u.id = uid := by
              rw [findUserById] at hf
              have := List.find?_some hf
              simpa using this
            have hfm := find?_map_update s.users uid
              { u with name := old.name, email := old.email, updated_at := now }
              u (by rw [findUserById] at hf; exact hf) hu2
            have hany2 : (s.users.map (fun w =>
                if w.id == uid
                then { u with name := old.name, email := old.email, updated_at := now }
                else w)).any (fun w => w.id == uid) = true :=
              any_eq_true_of_find?_eq_some hfm
            simp only [updateUserRow, hf, hc, Bool.false_eq_true, if_false,
              insertAudit, hany2, if_true, runTx]
            refine .inr ⟨old, v, _, rfl, rfl, rfl, ?_⟩
            intro w hw
            rcases List.mem_map.mp hw with ⟨w0, hw0, hweq⟩
            by_cases hwid : w0.id = uid
            · subst hweq
              rw [if_pos (by simp [hwid])]
              exact .inl hu2
            · subst hweq
              rw [if_neg (by simp [hwid])]
              exact .inr ⟨w0, hw0, rfl⟩

/-- C4: every mutating request (create, update, delete, restore) executes as
one atomic transaction (`get_db_cursor`): a failed request hands back exactly
the input state — the rollback leaves no partial entity or audit rows — and a
successful request commits all its writes, in particular exactly one new
audit row appended at the tail of the log. -/
theorem mutation_atomic (now : Nat) (op : Op) (s : DBState) :
    ((applyOp now op s).1 = false → (applyOp now op s).2 = s)
    ∧ ((applyOp now op s).1 = true →
        ∃ r, (applyOp now op s).2.audit = s.audit ++ [r]) := by
  cases op with
  | create n e p =>
      rcases createUser_cases s n e p now with ⟨err, heq⟩ | heq
      · simp [applyOp, heq]
      · simp [applyOp, heq]
  | update uid n e a =>
      rcases updateUser_cases s uid n e a now with ⟨err, heq⟩ | ⟨v, u, _, _, heq⟩
      · simp [applyOp, heq]
      · simp [applyOp, heq]
  | delete uid a =>
      obtain ⟨err, heq⟩ := deleteUser_error s uid a now
      simp [applyOp, heq]
  | restore uid V a =>
      rcases restoreUser_cases s uid V a now with ⟨err, heq⟩
        | ⟨old, v, newUsers, _, _, heq, _⟩
      · simp [applyOp, heq]
      · simp [applyOp, heq]

theorem mutation_atomic_witness :
    (applyOp 2 (Op.delete 1 "1") afterFirstCreate).1 = false
    ∧ (applyOp 2 (Op.delete 1 "1") afterFirstCreate).2 = afterFirstCreate :=
  ⟨by decide, (mutation_atomic 2 (Op.delete 1 "1") afterFirstCreate).1 (by decide)⟩

/-- Appending one audit row extends exactly its entity's version list. -/
theorem versionsOf_append_audit (s t : DBState) (r : AuditRow) (uid : Nat)
    (h : t.audit = s.audit ++ [r]) :
    versionsOf t uid
      = versionsOf s uid ++ (if r.user_id == uid then [r.version] else []) := by
  rw [versionsOf, versionsOf, auditFor, auditFor, h, List.filter_append,
    List.map_append]
  by_cases hr : (r.user_id == uid) = true
  · simp [List.filter_cons, hr]
  · simp [List.filter_cons, hr]

theorem range'_one_snoc (n : Nat) :
    List.range' 1 n ++ [n + 1] = List.range' 1 (n + 1) := by
  have h := List.range'_append_1 1 n 1
  rw [List.range'_one] at h
  rw [Nat.add_comm 1 n] at h
  exact h

/-- A non-empty latest-version answer exhibits a recorded row. -/
theorem mem_of_latestVersion_some {s : DBState} {uid v : Nat}
    (h : latestVersion s uid = some v) :
    ∃ a ∈ s.audit, a.user_id = uid := by
  rw [latestVersion] at h
  cases hq : historyQuery s uid with
  | nil =>
      rw [hq] at h
      simp at h
  | cons r t =>
      have hr : r ∈ historyQuery s uid := hq ▸ List.mem_cons_self r t
      have hr2 : r ∈ auditFor s uid :=
        (List.perm_insertionSort verGE (auditFor s uid)).mem_iff.mp hr
      rw [auditFor, List.mem_filter] at hr2
      exact ⟨r, hr2.1, by simpa using hr2.2⟩

/-- One request preserves well-formedness, and its effect on any entity's
version list is exactly: nothing on failure or on other entities, one new
version `N+1` on the successful target. -/
theorem applyOp_step (now : Nat) (op : Op) (s : DBState) (hInv : DBInv s) :
    DBInv (applyOp now op s).2
    ∧ ∀ uid, versionsOf (applyOp now op s).2 uid
        = versionsOf s uid
          ++ (if ((applyOp now op s).1 && (targetOf op s == uid)) = true
              then [(versionsOf s uid).length + 1] else []) := by
  cases op with
  | create n e p =>
    rcases createUser_cases s n e p now with ⟨err, heq⟩ | heq
    · have ha : applyOp now (Op.create n e p) s = (false, s) := by
        simp [applyOp, heq]
      rw [ha]
      exact ⟨hInv, fun uid => by simp⟩
    · have ha : applyOp now (Op.create n e p) s
          = (true,
             ⟨s.users ++ [⟨s.nextUserId, n, e, get_password_hash p, now, now⟩],
              s.audit ++ [⟨s.nextUserId, 1, n, e, "CREATE", now, none⟩],
              s.nextUserId + 1⟩) := by
        simp [applyOp, heq]
      rw [ha]
      have hfresh : versionsOf s s.nextUserId = [] := by
        have hnil : auditFor s s.nextUserId = [] := by
          rw [auditFor]
          apply List.filter_eq_nil_iff.mpr
          intro a ha2
          simp only [beq_iff_eq]
          intro hEq
          have := hInv.auditBound a ha2
          omega
        rw [versionsOf, hnil]
        rfl
      have hv := fun uid => versionsOf_append_audit s
        ⟨s.users ++ [⟨s.nextUserId, n, e, get_password_hash p, now, now⟩],
         s.audit ++ [⟨s.nextUserId, 1, n, e, "CREATE", now, none⟩],
         s.nextUserId + 1⟩
        ⟨s.nextUserId, 1, n, e, "CREATE", now, none⟩ uid rfl
      refine ⟨⟨?_, ?_, ?_⟩, ?_⟩
      · intro uid
        rw [hv uid]
        by_cases huid : s.nextUserId = uid
        · subst huid
          simp [hfresh]
        · have hbeq : (s.nextUserId == uid) = false := by simp [huid]
          simp only [hbeq, Bool.false_eq_true, if_false, List.append_nil]
          exact hInv.gapless uid
      · intro a ha2
        simp only [List.mem_append, List.mem_singleton] at ha2
        rcases ha2 with h | h
        · exact Nat.lt_succ_of_lt (hInv.auditBound a h)
        · subst h
          exact Nat.lt_succ_self _
      · intro u hu
        simp only [List.mem_append, List.mem_singleton] at hu
        rcases hu with h | h
        · exact Nat.lt_succ_of_lt (hInv.userBound u h)
        · subst h
          exact Nat.lt_succ_self _
      · intro uid
        rw [hv uid]
        by_cases huid : s.nextUserId = uid
        · subst huid
          simp [hfresh, targetOf]
        · have hbeq : (s.nextUserId == uid) = false := by simp [huid]
          simp [targetOf, hbeq]
  | update uid0 n e a =>
    rcases updateUser_cases s uid0 n e a now with ⟨err, heq⟩ | ⟨v, u, hlv, hfind, heq⟩
    · have ha : applyOp now (Op.update uid0 n e a) s = (false, s) := by
        simp [applyOp, heq]
      rw [ha]
      exact ⟨hInv, fun uid => by simp⟩
    · have ha : applyOp now (Op.update uid0 n e a) s
          = (true,
             ⟨s.users.map (fun w => if w.id == uid0
                 then { u with name := n, email := e, updated_at := now } else w),
              s.audit ++ [⟨uid0, v + 1, n, e, "UPDATE", now, some a⟩],
              s.nextUserId⟩) := by
        simp [applyOp, heq]
      rw [ha]
      have hg := hInv.gapless uid0
      have hLV := latestVersion_of_gapless s uid0 (versionsOf s uid0).length hg
      rw [hlv] at hLV
      have hvlen : v = (versionsOf s uid0).length := by
        by_cases hz : (versionsOf s uid0).length = 0
        · rw [if_pos hz] at hLV
          exact absurd hLV (by simp)
        · rw [if_neg hz] at hLV
          exact Option.some.inj hLV
      have huid0lt : uid0 < s.nextUserId := by
        obtain ⟨w, hwmem, hwid⟩ := mem_of_latestVersion_some hlv
        have := hInv.auditBound w hwmem
        omega
      have hv2 := fun uid => versionsOf_append_audit s
        ⟨s.users.map (fun w => if w.id == uid0
            then { u with name := n, email := e, updated_at := now } else w),
         s.audit ++ [⟨uid0, v + 1, n, e, "UPDATE", now, some a⟩],
         s.nextUserId⟩
        ⟨uid0, v + 1, n, e, "UPDATE", now, some a⟩ uid rfl
      refine ⟨⟨?_, ?_, ?_⟩, ?_⟩
      · intro uid
        rw [hv2 uid]
        by_cases huid : uid0 = uid
        · subst huid
          simp only [beq_self_eq_true, if_true]
          rw [hg, hvlen, range'_one_snoc]
          simp
        · have hbeq : (uid0 == uid) = false := by simp [huid]
          simp only [hbeq, Bool.false_eq_true, if_false, List.append_nil]
          exact hInv.gapless uid
      · intro b hb
        simp only [List.mem_append, List.mem_singleton] at hb
        rcases hb with h | h
        · exact hInv.auditBound b h
        · subst h
          exact huid0lt
      · intro w hw
        rcases List.mem_map.mp hw with ⟨w0, hw0, hweq⟩
        have hb := hInv.userBound w0 hw0
        by_cases hwid : w0.id = uid0
        · rw [← hweq, if_pos (by simp [hwid])]
          have hfu : u.id = uid0 := by
            rw [findUserById] at hfind
            have := List.find?_some hfind
            simpa using this
          simpa [hfu] using huid0lt
        · rw [← hweq, if_neg (by simp [hwid])]
          exact hb
      · intro uid
        rw [hv2 uid]
        by_cases huid : uid0 = uid
        · subst huid
          simp [targetOf, hvlen]
        · have hbeq : (uid0 == uid) = false := by simp [huid]
          simp [targetOf, hbeq]
  | delete uid0 a =>
    obtain ⟨err, heq⟩ := deleteUser_error s uid0 a now
    have ha : applyOp now (Op.delete uid0 a) s = (false, s) := by
      simp [applyOp, heq]
    rw [ha]
    exact ⟨hInv, fun uid => by simp⟩
  | restore uid0 V a =>
    rcases restoreUser_cases s uid0 V a now with ⟨err, heq⟩
      | ⟨old, v, newUsers, hV, hlv, heq, husers⟩
    · have ha : applyOp now (Op.restore uid0 V a) s = (false, s) := by
        simp [applyOp, heq]
      rw [ha]
      exact ⟨hInv, fun uid => by simp⟩
    · have ha : applyOp now (Op.restore uid0 V a) s
          = (true,
             ⟨newUsers,
              s.audit ++ [⟨uid0, v + 1, old.name, old.email, "RESTORE", now,
                some a⟩],
              s.nextUserId⟩) := by
        simp [applyOp, heq]
      rw [ha]
      have hg := hInv.gapless uid0
      have hLV := latestVersion_of_gapless s uid0 (versionsOf s uid0).length hg
      rw [hlv] at hLV
      have hvlen : v = (versionsOf s uid0).length := by
        by_cases hz : (versionsOf s uid0).length = 0
        · rw [if_pos hz] at hLV
          exact absurd hLV (by simp)
        · rw [if_neg hz] at hLV
          exact Option.some.inj hLV
      have huid0lt : uid0 < s.nextUserId := by
        have hmem : old ∈ s.audit := List.mem_of_find?_eq_some hV
        have hpred := List.find?_some hV
        simp only [Bool.and_eq_true, beq_iff_eq] at hpred
        have := hInv.auditBound old hmem
        omega
      have hv2 := fun uid => versionsOf_append_audit s
        ⟨newUsers,
         s.audit ++ [⟨uid0, v + 1, old.name, old.email, "RESTORE", now, some a⟩],
         s.nextUserId⟩
        ⟨uid0, v + 1, old.name, old.email, "RESTORE", now, some a⟩ uid rfl
      refine ⟨⟨?_, ?_, ?_⟩, ?_⟩
      · intro uid
        rw [hv2 uid]
        by_cases huid : uid0 = uid
        · subst huid
          simp only [beq_self_eq_true, if_true]
          rw [hg, hvlen, range'_one_snoc]
          simp
        · have hbeq : (uid0 == uid) = false := by simp [huid]
          simp only [hbeq, Bool.false_eq_true, if_false, List.append_nil]
          exact hInv.gapless uid
      · intro b hb
        simp only [List.mem_append, List.mem_singleton] at hb
        rcases hb with h | h
        · exact hInv.auditBound b h
        · subst h
          exact huid0lt
      · intro w hw
        rcases husers w hw with h | ⟨w0, hw0, hweq⟩
        · rw [h]
          exact huid0lt
        · rw [hweq]
          exact hInv.userBound w0 hw0
      · intro uid
        rw [hv2 uid]
        by_cases huid : uid0 = uid
        · subst huid
          simp [targetOf, hvlen]
        · have hbeq : (uid0 == uid) = false := by simp [huid]
          simp [targetOf, hbeq]

/-- Running a request sequence appends, per entity, exactly one consecutive
version per successful mutation targeting it. -/
theorem runOps_step (ops : List (Nat × Op)) (s : DBState) (hInv : DBInv s)
    (uid : Nat) :
    versionsOf (runOps ops s) uid
      = versionsOf s uid
        ++ List.range' ((versionsOf s uid).length + 1) (mutationCount uid ops s)
    := by
  induction ops generalizing s with
  | nil => simp [runOps, mutationCount]
  | cons hd rest ih =>
    obtain ⟨now, op⟩ := hd
    obtain ⟨hInv1, hver⟩ := applyOp_step now op s hInv
    rw [runOps]
    have hrec := ih (applyOp now op s).2 hInv1
    rw [hver uid] at hrec
    rw [hrec]
    simp only [mutationCount]
    by_cases hcond : ((applyOp now op s).1 && (targetOf op s == uid)) = true
    · rw [if_pos hcond, if_pos hcond]
      simp only [List.length_append, List.length_singleton]
      rw [List.append_assoc, List.singleton_append]
      congr 1
      rw [Nat.add_comm 1 (mutationCount uid rest (applyOp now op s).2)]
      rw [List.range'_succ]
    · rw [if_neg hcond, if_neg hcond]
      simp

instance : IsAntisymm Nat (fun a b => b ≤ a) :=
  ⟨fun _ _ h1 h2 => Nat.le_antisymm h2 h1⟩

/-- Under the gapless invariant the full-history query lists the versions
strictly descending: N, N-1, …, 1. -/
theorem history_desc_of_gapless (s : DBState) (uid n : Nat)
    (h : versionsOf s uid = List.range' 1 n) :
    (historyQuery s uid).map (fun a => a.version) = (List.range' 1 n).reverse
    := by
  have hperm : List.Perm ((historyQuery s uid).map (fun a => a.version))
      (List.range' 1 n) := by
    rw [← h, versionsOf]
    exact (List.perm_insertionSort verGE (auditFor s uid)).map _
  have hsorted2 : List.Sorted (fun a b : Nat => b ≤ a)
      ((historyQuery s uid).map (fun a => a.version)) := by
    have hs := List.sorted_insertionSort verGE (auditFor s uid)
    rw [List.Sorted, List.pairwise_map]
    exact hs
  have hrevsorted : List.Sorted (fun a b : Nat => b ≤ a)
      ((List.range' 1 n).reverse) := by
    rw [List.Sorted, List.pairwise_reverse]
    exact List.pairwise_le_range' 1 n
  exact List.eq_of_perm_of_sorted
    (hperm.trans (List.reverse_perm (List.range' 1 n)).symm) hsorted2 hrevsorted

/-- C1: starting from a fresh database, for every request sequence and every
entity identity, the recorded audit versions are exactly 1, 2, …, N in
insertion order — no gaps — where N is the number of successful mutations
applied to that identity; the history endpoint answers a non-empty history
with exactly those records ordered strictly descending by version (newest
first), and 404 when the history is empty. -/
theorem audit_versions_gapless_and_descending (ops : List (Nat × Op))
    (uid : Nat) :
    versionsOf (runOps ops emptyDB) uid
      = List.range' 1 (mutationCount uid ops emptyDB)
    ∧ (historyQuery (runOps ops emptyDB) uid).map (fun a => a.version)
      = (List.range' 1 (mutationCount uid ops emptyDB)).reverse
    ∧ (getUserAudit (runOps ops emptyDB) uid).1
      = (if mutationCount uid ops emptyDB = 0
         then .error (.notFound ("No audit entries found for user "
           ++ toString uid))
         else .ok (historyQuery (runOps ops emptyDB) uid)) := by
  have h1 : versionsOf (runOps ops emptyDB) uid
      = List.range' 1 (mutationCount uid ops emptyDB) := by
    have h := runOps_step ops emptyDB dbInv_emptyDB uid
    have he : versionsOf emptyDB uid = [] := rfl
    rw [he] at h
    simpa using h
  refine ⟨h1, history_desc_of_gapless _ _ _ h1, ?_⟩
  by_cases hz : mutationCount uid ops emptyDB = 0
  · rw [if_pos hz]
    have hnil : historyQuery (runOps ops emptyDB) uid = [] := by
      rw [hz] at h1
      have h0 : versionsOf (runOps ops emptyDB) uid = [] := by simpa using h1
      rw [versionsOf] at h0
      have hAud0 : auditFor (runOps ops emptyDB) uid = [] :=
        List.map_eq_nil_iff.mp h0
      rw [historyQuery, hAud0]
      rfl
    simp [getUserAudit, hnil, runTx, getUserAuditTranslate]
  · rw [if_neg hz]
    have hne : historyQuery (runOps ops emptyDB) uid ≠ [] := by
      intro h0
      have h2 := history_desc_of_gapless _ _ _ h1
      rw [h0] at h2
      have hlen := congrArg List.length h2
      simp at hlen
      omega
    simp [getUserAudit, hne, runTx]
